import Mathlib

/-!
Verification of the secure_vault chunked AEAD container format.

This file is a shallow embedding of the repository's codec core:

* `src/crypto/mod.rs`    — format constants and the `CryptoEngine` dispatch;
* `src/crypto/types.rs`  — the `Algorithm` registry;
* `src/crypto/chacha.rs` — the ChaCha20-Poly1305 chunked codec
  (`CounterNonceSequence`, `encrypt_file`, `decrypt_file`);
* `src/crypto/kdf.rs`    — the password-to-key derivation wrapper.

Byte streams are modelled as `List Nat` (each element a byte value), file
contents as the list of their bytes, and the asynchronous reader/writer pairs
of the Rust code as pure functions from input bytes to output bytes or an
error.  The external cryptographic primitives (the Argon2id hash inside
`kdf::derive_key` and the AEAD seal/open operations of `ring`) are not code of
this repository; they are abstracted: the AEAD is a parameter (a pair of
`seal`/`openChunk` functions), with a concrete executable instantiation
`idealAEAD` used to evaluate the codec on concrete inputs, and the KDF is a
concrete deterministic stand-in whose output depends on password, salt and
iteration count exactly as the spec's determinism invariant requires.
The framing, header handling, nonce derivation, counters, error paths and
constants are translated directly from the Rust source.
-/

namespace SecureVault

/-- File format version (`crypto/mod.rs`, `pub const VERSION: u8 = 1`). -/
def VERSION : Nat := 1

/-- Salt size for key derivation (`crypto/mod.rs`, `SALT_SIZE = 32`). -/
def SALT_SIZE : Nat := 32

/-- Chunk size for streaming encryption (`crypto/mod.rs`, `CHUNK_SIZE = 1024 * 1024`). -/
def CHUNK_SIZE : Nat := 1024 * 1024

/-- AEAD authentication tag size: 16 bytes for both supported ciphers. -/
def TAG_SIZE : Nat := 16

/-- Supported encryption algorithms (`crypto/types.rs`). -/
inductive Algorithm
  | Aes256Gcm
  | ChaCha20Poly1305
deriving DecidableEq

/-- Wire identifier of an algorithm (`Algorithm::to_byte`). -/
def Algorithm.to_byte : Algorithm → Nat
  | .Aes256Gcm => 1
  | .ChaCha20Poly1305 => 2

/-- Decode a wire identifier (`Algorithm::from_byte`); unknown bytes give `none`. -/
def Algorithm.from_byte : Nat → Option Algorithm
  | 1 => some .Aes256Gcm
  | 2 => some .ChaCha20Poly1305
  | _ => none

/-- Declared nonce size of an algorithm (`Algorithm::nonce_size`). -/
def Algorithm.nonce_size : Algorithm → Nat
  | .Aes256Gcm => 12
  | .ChaCha20Poly1305 => 24

/-- Declared tag size of an algorithm (`Algorithm::tag_size`): 16 for both. -/
def Algorithm.tag_size : Algorithm → Nat :=
  fun _ => 16

/-- Error taxonomy of the vault (`src/error.rs`).  The payloads that matter to
the codec's control flow are kept; `IoError`'s wrapped `std::io::Error` is
collapsed to a bare constructor. -/
inductive VaultError
  | OutputExists
  | InputNotFound
  | FileReadError (msg : String)
  | FileWriteError (msg : String)
  | EncryptionError (msg : String)
  | DecryptionError (msg : String)
  | InvalidFormat (msg : String)
  | UnsupportedVersion (v : Nat)
  | UnsupportedAlgorithm (b : Nat)
  | PasswordRequired
  | AuthenticationFailed
  | KdfError (msg : String)
  | IoError
deriving DecidableEq

/-- Result of a decrypt call: the bytes written to the output file, or the
error that aborted the operation. -/
inductive VResult
  | ok (data : List Nat)
  | err (e : VaultError)
deriving DecidableEq

/-- Little-endian byte encoding with a fixed width, as produced by Rust's
`u64::to_le_bytes` (width 8): byte `j` is `n / 256^j % 256`. -/
def toLEBytes : Nat → Nat → List Nat
  | 0, _ => []
  | k + 1, n => n % 256 :: toLEBytes k (n / 256)

/-- Value of a little-endian byte list (inverse of `toLEBytes` below its width). -/
def fromLEBytes : List Nat → Nat
  | [] => 0
  | b :: rest => b + 256 * fromLEBytes rest

/-- Big-endian 4-byte encoding, as written by tokio's `write_u32(n as u32)`;
the digit extraction truncates exactly like the `as u32` cast. -/
def toBEBytes4 (n : Nat) : List Nat :=
  [n / 2 ^ 24 % 256, n / 2 ^ 16 % 256, n / 2 ^ 8 % 256, n % 256]

/-- Model of tokio's big-endian `read_u32` on a byte stream: consume four
bytes and return the decoded value and the rest.  `none` models the
`UnexpectedEof` error that tokio raises when the stream ends after zero to
three of the four bytes. -/
def read_u32 (s : List Nat) : Option (Nat × List Nat) :=
  match s with
  | a :: b :: c :: d :: rest => some (a * 2 ^ 24 + b * 2 ^ 16 + c * 2 ^ 8 + d, rest)
  | _ => none

/-- Per-chunk nonce of the ChaCha codec (`CounterNonceSequence::advance`):
twelve bytes, the first four zero, the last eight the little-endian counter. -/
def nonceBytes (counter : Nat) : List Nat :=
  List.replicate 4 0 ++ toLEBytes 8 counter

/-- Custom nonce sequence for ChaCha20 (`chacha.rs`): a 64-bit counter. -/
structure CounterNonceSequence where
  counter : Nat
deriving DecidableEq

/-- Fresh sequence (`CounterNonceSequence::new`): counter starts at 0. -/
def CounterNonceSequence.new : CounterNonceSequence :=
  ⟨0⟩

/-- One step of the sequence (`CounterNonceSequence::advance`): emit the nonce
for the current counter, then increment the `u64` counter (wrapping). -/
def CounterNonceSequence.advance (s : CounterNonceSequence) : List Nat × CounterNonceSequence :=
  (nonceBytes s.counter, ⟨(s.counter + 1) % 2 ^ 64⟩)

/-- The nonce used for the `k`-th sealed or opened chunk of a session, counted
from 0: advance the sequence `k` times and take the emitted nonce. -/
def nthNonce : Nat → CounterNonceSequence → List Nat
  | 0, s => (CounterNonceSequence.advance s).1
  | k + 1, s => nthNonce k (CounterNonceSequence.advance s).2

/-- The `k`-th nonce of one encryption session, starting from a fresh sequence. -/
def sessionNonce (k : Nat) : List Nat :=
  nthNonce k CounterNonceSequence.new

/-- Models `kdf::derive_key`.  The Argon2id hash itself is an external library
primitive; following the spec's invariant — derivation is deterministic in the
(password, salt, work-factor) triple — it is modelled as a concrete
deterministic 32-byte digest of those three inputs.  What matters to the
claims is faithful to the source: the key depends on the `iterations`
argument (`t_cost`), on the password and on the salt, and on nothing else. -/
def derive_key (password : String) (salt : List Nat) (iterations : Nat) : List Nat :=
  [iterations % 256, password.length % 256,
   (password.toList.map Char.toNat).sum % 256, salt.length % 256]
    ++ (salt.map (· % 256) ++ List.replicate 28 0).take 28

/-- An AEAD primitive as the codec consumes it: `seal key nonce plaintext`
returns ciphertext with the 16-byte tag appended (`seal_in_place_append_tag`),
`openChunk key nonce ciphertext` verifies and strips the tag
(`open_in_place`), returning `none` on authentication failure. -/
structure AEAD where
  sealChunk : List Nat → List Nat → List Nat → List Nat
  openChunk : List Nat → List Nat → List Nat → Option (List Nat)

/-- Sixteen-byte tag of the executable AEAD instantiation: a digest of key,
nonce and plaintext, padded to `TAG_SIZE` bytes. -/
def tagOf (key nonce pt : List Nat) : List Nat :=
  [key.sum % 256, key.length % 256, nonce.sum % 256, nonce.length % 256,
   pt.sum % 256, pt.length % 256] ++ List.replicate 10 0

/-- Executable AEAD instantiation used to run the codec on concrete inputs:
sealing appends the 16-byte `tagOf` digest, opening verifies and strips it. -/
def idealAEAD : AEAD where
  sealChunk key nonce pt := pt ++ tagOf key nonce pt
  openChunk key nonce ct :=
    if ct.length < TAG_SIZE then none
    else if ct.drop (ct.length - TAG_SIZE) = tagOf key nonce (ct.take (ct.length - TAG_SIZE))
    then some (ct.take (ct.length - TAG_SIZE)) else none

/-- The read loop of `encrypt_file`: split the input file into successive
chunks of `CHUNK_SIZE` bytes, the last one shorter; an empty file yields no
chunk at all (`bytes_read == 0` breaks out before anything is sealed).
`fuel` bounds the recursion; the caller supplies the file length, which can
never be exhausted since every iteration consumes at least one byte, and at
fuel 0 the remaining input is empty, matching the `break`. -/
def chunksLoop : Nat → List Nat → List (List Nat)
  | 0, _ => []
  | fuel + 1, l =>
    if l = [] then []
    else l.take CHUNK_SIZE :: chunksLoop fuel (l.drop CHUNK_SIZE)

/-- The chunking of a file, as read by the encryption loop. -/
def chunksOf (l : List Nat) : List (List Nat) :=
  chunksLoop l.length l

/-- The write loop of `encrypt_file`: seal each chunk with the next counter
nonce and emit `length(u32, big-endian) || ciphertext+tag` for each. -/
def sealChunks (A : AEAD) (key : List Nat) : Nat → List (List Nat) → List Nat
  | _, [] => []
  | ctr, c :: cs =>
    let ct := A.sealChunk key (nonceBytes ctr) c
    toBEBytes4 ct.length ++ ct ++ sealChunks A key (ctr + 1) cs

/-- The fresh random salt of one encryption call: 32 bytes drawn from the
caller-supplied random stream (`rand::thread_rng().fill_bytes`, modelled by
an explicit byte source `rng`). -/
def freshSalt (rng : Nat → Nat) : List Nat :=
  (List.range SALT_SIZE).map fun i => rng i % 256

/-- The fresh random base nonce of one ChaCha encryption call: the source
allocates `[0u8; 12]` and fills it from the RNG, so exactly 12 bytes. -/
def freshNonce (rng : Nat → Nat) : List Nat :=
  (List.range 12).map fun i => rng (SALT_SIZE + i) % 256

/-- The header written by `chacha::encrypt_file`: version byte, algorithm
byte, 32-byte salt, then the 12-byte base nonce. -/
def chachaHeader (rng : Nat → Nat) : List Nat :=
  VERSION :: Algorithm.to_byte .ChaCha20Poly1305 :: (freshSalt rng ++ freshNonce rng)

/-- Embedding of `chacha::encrypt_file`: derive the key from the password and
the fresh salt with the caller's iteration count, write the header, then the
framed sealed chunks with counter nonces starting at 0.  The input file's
bytes, and the RNG bytes, are explicit arguments; the returned list is the
full content of the output file. -/
def encrypt_file (A : AEAD) (rng : Nat → Nat) (file : List Nat)
    (password : String) (iterations : Nat) : List Nat :=
  chachaHeader rng ++
    sealChunks A (derive_key password (freshSalt rng) iterations) 0 (chunksOf file)

/-- The chunk-reading loop of `chacha::decrypt_file`.  Each iteration: read a
4-byte big-endian length (end of stream anywhere inside those four bytes
breaks out of the loop — tokio's `read_u32` raises `UnexpectedEof`, which the
source matches and turns into `break`); `read_exact` the declared number of
ciphertext bytes (a short read is an `IoError`); open the chunk with the next
counter nonce (failure is `AuthenticationFailed`); accumulate the plaintext.
`fuel` bounds the recursion; the caller supplies the stream length, which can
never be exhausted since every iteration consumes at least four bytes, and at
fuel 0 the stream is empty, matching the `break` on end of stream. -/
def openLoop (A : AEAD) (key : List Nat) : Nat → List Nat → Nat → VResult
  | 0, _, _ => .ok []
  | fuel + 1, s, ctr =>
    match read_u32 s with
    | none => .ok []
    | some (len, rest) =>
      if rest.length < len then .err .IoError
      else
        match A.openChunk key (nonceBytes ctr) (rest.take len) with
        | none => .err .AuthenticationFailed
        | some pt =>
          match openLoop A key fuel (rest.drop len) (ctr + 1) with
          | .ok tail => .ok (pt ++ tail)
          | .err e => .err e

/-- The decrypt chunk loop on a byte stream, counters starting at `ctr`. -/
def openChunks (A : AEAD) (key : List Nat) (s : List Nat) (ctr : Nat) : VResult :=
  openLoop A key s.length s ctr

/-- Embedding of `chacha::decrypt_file`: parse and validate the header
(version, then algorithm byte, then 32-byte salt, then 12-byte base nonce —
the nonce is read but never used), derive the key with the hard-coded default
iteration count 3 (`kdf::derive_key(password, &salt, 3)` in the source), then
run the chunk loop on the remaining bytes. -/
def decrypt_file (A : AEAD) (input : List Nat) (password : String) : VResult :=
  match input with
  | [] => .err .IoError
  | version :: r1 =>
    if version ≠ VERSION then .err (.UnsupportedVersion version)
    else
      match r1 with
      | [] => .err .IoError
      | algorithm_byte :: r2 =>
        if algorithm_byte ≠ Algorithm.to_byte .ChaCha20Poly1305 then
          .err (.InvalidFormat "Wrong algorithm")
        else if r2.length < SALT_SIZE then .err .IoError
        else
          let salt := r2.take SALT_SIZE
          let r3 := r2.drop SALT_SIZE
          if r3.length < 12 then .err .IoError
          else
            let key := derive_key password salt 3
            openChunks A key (r3.drop 12) 0

/-- Modelled from the spec: `aes::encrypt_file` (the `aes` codec module is
declared in `crypto/mod.rs` but its file is not part of the sources at hand).
Per the spec it mirrors the ChaCha codec over the shared container format,
writing algorithm byte 1 and a 12-byte base nonce (the registry's declared
nonce size for `Aes256Gcm`). -/
def aes_encrypt_file (A : AEAD) (rng : Nat → Nat) (file : List Nat)
    (password : String) (iterations : Nat) : List Nat :=
  VERSION :: Algorithm.to_byte .Aes256Gcm :: (freshSalt rng ++ freshNonce rng) ++
    sealChunks A (derive_key password (freshSalt rng) iterations) 0 (chunksOf file)

/-- Modelled from the spec: `aes::decrypt_file` (source file not at hand).
Mirror of the ChaCha decrypt path over the shared container format, expecting
algorithm byte 1 and a 12-byte base nonce. -/
def aes_decrypt_file (A : AEAD) (input : List Nat) (password : String) : VResult :=
  match input with
  | [] => .err .IoError
  | version :: r1 =>
    if version ≠ VERSION then .err (.UnsupportedVersion version)
    else
      match r1 with
      | [] => .err .IoError
      | algorithm_byte :: r2 =>
        if algorithm_byte ≠ Algorithm.to_byte .Aes256Gcm then
          .err (.InvalidFormat "Wrong algorithm")
        else if r2.length < SALT_SIZE then .err .IoError
        else
          let salt := r2.take SALT_SIZE
          let r3 := r2.drop SALT_SIZE
          if r3.length < 12 then .err .IoError
          else
            let key := derive_key password salt 3
            openChunks A key (r3.drop 12) 0

/-- Embedding of `CryptoEngine::decrypt_file` (`crypto/mod.rs`): read the
first two header bytes (fewer than two is an I/O error), reject a wrong
version as `UnsupportedVersion`, resolve the algorithm byte through the
registry rejecting unknown bytes as `UnsupportedAlgorithm`, then dispatch to
the matching codec, which re-reads the file from the start. -/
def engine_decrypt_file (A : AEAD) (input : List Nat) (password : String) : VResult :=
  match input with
  | version :: algorithm_byte :: _ =>
    if version ≠ VERSION then .err (.UnsupportedVersion version)
    else
      match Algorithm.from_byte algorithm_byte with
      | none => .err (.UnsupportedAlgorithm algorithm_byte)
      | some .Aes256Gcm => aes_decrypt_file A input password
      | some .ChaCha20Poly1305 => decrypt_file A input password
  | _ => .err .IoError

/-- The all-zero byte source, used to run the codec on concrete inputs. -/
def zeroRng : Nat → Nat :=
  fun _ => 0

/-- The on-disk framing of a list of ciphertext chunks: each preceded by its
4-byte big-endian length, concatenated. -/
def frame (cts : List (List Nat)) : List Nat :=
  (cts.map fun ct => toBEBytes4 ct.length ++ ct).flatten

/-- All chunks of a list open successfully under consecutive counter nonces
starting at `ctr`. -/
def OpensAll (A : AEAD) (key : List Nat) : Nat → List (List Nat) → Prop
  | _, [] => True
  | ctr, c :: cs =>
    (∃ pt, A.openChunk key (nonceBytes ctr) c = some pt) ∧ OpensAll A key (ctr + 1) cs

/-- A stream shorter than a length field cannot be read as one. -/
theorem read_u32_none {s : List Nat} (h : s.length < 4) : read_u32 s = none := by
  match s with
  | [] => rfl
  | [_] => rfl
  | [_, _] => rfl
  | [_, _, _] => rfl
  | _ :: _ :: _ :: _ :: _ => simp at h; omega

/-- Reading a length field consumes exactly four bytes. -/
theorem read_u32_some {s : List Nat} {len : Nat} {rest : List Nat}
    (h : read_u32 s = some (len, rest)) : s.length = rest.length + 4 := by
  match s with
  | [] => simp [read_u32] at h
  | [_] => simp [read_u32] at h
  | [_, _] => simp [read_u32] at h
  | [_, _, _] => simp [read_u32] at h
  | a :: b :: c :: d :: t =>
    simp only [read_u32, Option.some.injEq, Prod.mk.injEq] at h
    rw [← h.2]
    simp

/-- The length field written by the encoder is read back as the same value
(truncated as the `as u32` cast does), with the stream position advanced past
the four bytes. -/
theorem read_u32_toBEBytes4 (n : Nat) (rest : List Nat) :
    read_u32 (toBEBytes4 n ++ rest) = some (n % 2 ^ 32, rest) := by
  simp only [toBEBytes4, List.cons_append, List.nil_append, read_u32,
    Option.some.injEq, Prod.mk.injEq]
  exact ⟨by omega, trivial⟩

/-- One-step unfolding of the decrypt loop at positive fuel. -/
theorem openLoop_succ (A : AEAD) (key : List Nat) (f : Nat) (s : List Nat) (ctr : Nat) :
    openLoop A key (f + 1) s ctr =
      match read_u32 s with
      | none => .ok []
      | some (len, rest) =>
        if rest.length < len then .err .IoError
        else
          match A.openChunk key (nonceBytes ctr) (rest.take len) with
          | none => .err .AuthenticationFailed
          | some pt =>
            match openLoop A key f (rest.drop len) (ctr + 1) with
            | .ok tail => .ok (pt ++ tail)
            | .err e => .err e :=
  rfl

/-- The decrypt loop does not depend on its fuel as long as the fuel is at
least the stream length (each iteration consumes at least four bytes). -/
theorem openLoop_fuel (A : AEAD) (key : List Nat) :
    ∀ f g s ctr, s.length ≤ f → s.length ≤ g →
      openLoop A key f s ctr = openLoop A key g s ctr := by
  intro f
  induction f with
  | zero =>
    intro g s ctr hf _
    have hs : s = [] := List.eq_nil_of_length_eq_zero (Nat.le_zero.mp hf)
    subst hs
    cases g with
    | zero => rfl
    | succ g => simp [openLoop, read_u32]
  | succ f ih =>
    intro g s ctr hf hg
    cases g with
    | zero =>
      have hs : s = [] := List.eq_nil_of_length_eq_zero (Nat.le_zero.mp hg)
      subst hs
      simp [openLoop, read_u32]
    | succ g =>
      rw [openLoop_succ A key f, openLoop_succ A key g]
      cases h : read_u32 s with
      | none => rfl
      | some pr =>
        obtain ⟨len, rest⟩ := pr
        have hlen := read_u32_some h
        by_cases hr : rest.length < len
        · simp [hr]
        · simp only [if_neg hr]
          cases ho : A.openChunk key (nonceBytes ctr) (rest.take len) with
          | none => rfl
          | some pt =>
            have hrec : openLoop A key f (rest.drop len) (ctr + 1) =
                openLoop A key g (rest.drop len) (ctr + 1) := by
              apply ih
              · simp only [List.length_drop]; omega
              · simp only [List.length_drop]; omega
            rw [hrec]

/-- The decrypt chunk loop satisfies the recurrence of the source's `loop`:
read a length (end of stream inside the field terminates with success), read
that many ciphertext bytes (short body is an I/O error), open with the next
counter nonce (failure is an authentication failure), recurse on the rest. -/
theorem openChunks_eq (A : AEAD) (key : List Nat) (s : List Nat) (ctr : Nat) :
    openChunks A key s ctr =
      match read_u32 s with
      | none => .ok []
      | some (len, rest) =>
        if rest.length < len then .err .IoError
        else
          match A.openChunk key (nonceBytes ctr) (rest.take len) with
          | none => .err .AuthenticationFailed
          | some pt =>
            match openChunks A key (rest.drop len) (ctr + 1) with
            | .ok tail => .ok (pt ++ tail)
            | .err e => .err e := by
  unfold openChunks
  cases h : read_u32 s with
  | none =>
    cases hs : s.length with
    | zero => rfl
    | succ m => rw [openLoop_succ, h]
  | some pr =>
    obtain ⟨len, rest⟩ := pr
    have hlen := read_u32_some h
    have hm : s.length = (rest.length + 3) + 1 := by omega
    rw [hm, openLoop_succ, h]
    by_cases hr : rest.length < len
    · simp [hr]
    · simp only [if_neg hr]
      cases ho : A.openChunk key (nonceBytes ctr) (rest.take len) with
      | none => rfl
      | some pt =>
        have hrec : openLoop A key (rest.length + 3) (rest.drop len) (ctr + 1) =
            openLoop A key (rest.drop len).length (rest.drop len) (ctr + 1) := by
          apply openLoop_fuel
          · simp only [List.length_drop]; omega
          · exact Nat.le_refl _
        rw [hrec]

/-- A stream with fewer than four bytes left terminates the loop normally. -/
theorem openChunks_short (A : AEAD) (key : List Nat) {s : List Nat} (ctr : Nat)
    (h : s.length < 4) : openChunks A key s ctr = .ok [] := by
  rw [openChunks_eq, read_u32_none h]

/-- A declared chunk length larger than the remaining stream is an I/O error. -/
theorem openChunks_body_short (A : AEAD) (key : List Nat) {s : List Nat} (ctr : Nat)
    {len : Nat} {rest : List Nat} (h : read_u32 s = some (len, rest))
    (hr : rest.length < len) : openChunks A key s ctr = .err .IoError := by
  rw [openChunks_eq, h]
  simp [hr]

/-- A chunk whose ciphertext fails to open aborts with `AuthenticationFailed`. -/
theorem openChunks_open_fails (A : AEAD) (key : List Nat) {s : List Nat} (ctr : Nat)
    {len : Nat} {rest : List Nat} (h : read_u32 s = some (len, rest))
    (hr : ¬ rest.length < len)
    (ho : A.openChunk key (nonceBytes ctr) (rest.take len) = none) :
    openChunks A key s ctr = .err .AuthenticationFailed := by
  rw [openChunks_eq, h]
  simp [hr, ho]

/-- Processing one well-framed record whose ciphertext opens: the plaintext is
prepended to the result of the loop on the remaining stream. -/
theorem openChunks_record_opens (A : AEAD) (key : List Nat) (ctr : Nat)
    {ct : List Nat} (rest : List Nat) {pt : List Nat} (hlt : ct.length < 2 ^ 32)
    (ho : A.openChunk key (nonceBytes ctr) ct = some pt) :
    openChunks A key (toBEBytes4 ct.length ++ ct ++ rest) ctr =
      match openChunks A key rest (ctr + 1) with
      | .ok tail => .ok (pt ++ tail)
      | .err e => .err e := by
  rw [List.append_assoc, openChunks_eq, read_u32_toBEBytes4, Nat.mod_eq_of_lt hlt]
  have hr : ¬ (ct ++ rest).length < ct.length := by simp
  simp only [if_neg hr, List.take_left, ho, List.drop_left]

/-- Processing one well-framed record whose ciphertext fails to open aborts
with `AuthenticationFailed`, whatever follows on the stream. -/
theorem openChunks_record_fails (A : AEAD) (key : List Nat) (ctr : Nat)
    {ct : List Nat} (rest : List Nat) (hlt : ct.length < 2 ^ 32)
    (ho : A.openChunk key (nonceBytes ctr) ct = none) :
    openChunks A key (toBEBytes4 ct.length ++ ct ++ rest) ctr =
      .err .AuthenticationFailed := by
  rw [List.append_assoc, openChunks_eq, read_u32_toBEBytes4, Nat.mod_eq_of_lt hlt]
  have hr : ¬ (ct ++ rest).length < ct.length := by simp
  simp only [if_neg hr, List.take_left, ho]

/-- The decrypt loop produces either a success, an I/O error, or an
authentication failure — never any other error kind. -/
theorem openLoop_shape (A : AEAD) (key : List Nat) :
    ∀ f s ctr, (∃ l, openLoop A key f s ctr = .ok l) ∨
      openLoop A key f s ctr = .err .IoError ∨
      openLoop A key f s ctr = .err .AuthenticationFailed := by
  intro f
  induction f with
  | zero => intro s ctr; exact Or.inl ⟨[], rfl⟩
  | succ f ih =>
    intro s ctr
    rw [openLoop_succ]
    cases h : read_u32 s with
    | none => exact Or.inl ⟨[], rfl⟩
    | some pr =>
      obtain ⟨len, rest⟩ := pr
      by_cases hr : rest.length < len
      · simp [hr]
      · simp only [if_neg hr]
        cases ho : A.openChunk key (nonceBytes ctr) (rest.take len) with
        | none => simp
        | some pt =>
          rcases ih (rest.drop len) (ctr + 1) with ⟨l, hl⟩ | hl | hl <;> simp [hl]

/-- The decrypt loop never reports `InvalidFormat`: no length bound is ever
checked against the chunk size. -/
theorem openChunks_never_invalid (A : AEAD) (key : List Nat) (s : List Nat) (ctr : Nat)
    (msg : String) : openChunks A key s ctr ≠ .err (.InvalidFormat msg) := by
  rcases openLoop_shape A key s.length s ctr with ⟨l, hl⟩ | hl | hl <;>
    rw [openChunks, hl] <;> simp

/-- Parsing a well-formed ChaCha container header: `decrypt_file` accepts
version byte 1 and algorithm byte 2, recovers the salt, skips the 12 base
nonce bytes, derives the key with the hard-coded iteration count 3, and runs
the chunk loop on the remaining bytes. -/
theorem decrypt_file_parse (A : AEAD) (pw : String) {salt nonce : List Nat}
    (body : List Nat) (hs : salt.length = SALT_SIZE) (hn : nonce.length = 12) :
    decrypt_file A (VERSION :: Algorithm.to_byte .ChaCha20Poly1305 ::
        (salt ++ nonce ++ body)) pw =
      openChunks A (derive_key pw salt 3) body 0 := by
  show decrypt_file A (1 :: 2 :: (salt ++ nonce ++ body)) pw = _
  have h1 : ¬ salt.length + (nonce.length + body.length) < SALT_SIZE := by
    rw [hs]; omega
  have h2 : ¬ salt.length + (nonce.length + body.length) - SALT_SIZE < 12 := by
    rw [hs, hn]; omega
  have htake : List.take SALT_SIZE (salt ++ (nonce ++ body)) = salt := by
    rw [← hs, List.take_left]
  have hdrop : List.drop (SALT_SIZE + 12) (salt ++ (nonce ++ body)) = body := by
    rw [← List.append_assoc]
    have hl : SALT_SIZE + 12 = (salt ++ nonce).length := by simp [hs, hn]
    rw [hl, List.drop_left]
  simp [decrypt_file, VERSION, Algorithm.to_byte, h1, h2, htake, hdrop]

/-- Little-endian decode inverts the fixed-width encode modulo the width. -/
theorem fromLEBytes_toLEBytes : ∀ (k n : Nat), fromLEBytes (toLEBytes k n) = n % 256 ^ k := by
  intro k
  induction k with
  | zero => intro n; simp [toLEBytes, fromLEBytes, Nat.mod_one]
  | succ k ih =>
    intro n
    rw [toLEBytes, fromLEBytes, ih, pow_succ, Nat.mul_comm (256 ^ k) 256, Nat.mod_mul]

/-- Distinct counter values below `2^64` have distinct 8-byte encodings. -/
theorem toLEBytes8_injective {i j : Nat} (hi : i < 2 ^ 64) (hj : j < 2 ^ 64)
    (h : toLEBytes 8 i = toLEBytes 8 j) : i = j := by
  have h2 := congrArg fromLEBytes h
  rw [fromLEBytes_toLEBytes, fromLEBytes_toLEBytes] at h2
  have hp : (256 : Nat) ^ 8 = 2 ^ 64 := by norm_num
  rw [hp, Nat.mod_eq_of_lt hi, Nat.mod_eq_of_lt hj] at h2
  exact h2

/-- Distinct counter values below `2^64` give distinct per-chunk nonces. -/
theorem nonceBytes_injective {i j : Nat} (hi : i < 2 ^ 64) (hj : j < 2 ^ 64)
    (h : nonceBytes i = nonceBytes j) : i = j := by
  unfold nonceBytes at h
  exact toLEBytes8_injective hi hj (List.append_cancel_left h)

/-- Advancing a fresh counter sequence `k` times yields the nonce for counter
value `k`, as long as the counter has not wrapped. -/
theorem nthNonce_eq : ∀ (k c : Nat), c + k < 2 ^ 64 →
    nthNonce k ⟨c⟩ = nonceBytes (c + k) := by
  intro k
  induction k with
  | zero => intro c _; rfl
  | succ k ih =>
    intro c h
    show nthNonce k ⟨(c + 1) % 2 ^ 64⟩ = nonceBytes (c + (k + 1))
    rw [Nat.mod_eq_of_lt (by omega), ih (c + 1) (by omega)]
    congr 1
    omega

/-- The `k`-th nonce of a session is the counter-`k` nonce while `k < 2^64`. -/
theorem sessionNonce_eq {k : Nat} (h : k < 2 ^ 64) : sessionNonce k = nonceBytes k := by
  have h0 := nthNonce_eq k 0 (by omega)
  rw [Nat.zero_add] at h0
  exact h0

/-- The chunks of a file concatenate back to the file. -/
theorem chunksLoop_flatten : ∀ (f : Nat) (l : List Nat), l.length ≤ f →
    (chunksLoop f l).flatten = l := by
  intro f
  induction f with
  | zero =>
    intro l h
    have hl : l = [] := List.eq_nil_of_length_eq_zero (Nat.le_zero.mp h)
    subst hl; rfl
  | succ f ih =>
    intro l h
    by_cases hl : l = []
    · subst hl; rfl
    · rw [chunksLoop, if_neg hl]
      have hpos : 0 < l.length := List.length_pos.mpr hl
      have hdl : (l.drop CHUNK_SIZE).length ≤ f := by
        rw [List.length_drop]
        rw [show CHUNK_SIZE = 1048576 from rfl]
        omega
      rw [List.flatten_cons, ih (l.drop CHUNK_SIZE) hdl, List.take_append_drop]

/-- Every chunk produced by the read loop is at most `CHUNK_SIZE` long. -/
theorem chunksLoop_sizes : ∀ (f : Nat) (l : List Nat),
    ∀ c ∈ chunksLoop f l, c.length ≤ CHUNK_SIZE := by
  intro f
  induction f with
  | zero => intro l c hc; simp [chunksLoop] at hc
  | succ f ih =>
    intro l c hc
    rw [chunksLoop] at hc
    by_cases hl : l = []
    · rw [if_pos hl] at hc; simp at hc
    · rw [if_neg hl] at hc
      rcases List.mem_cons.mp hc with h | h
      · subst h; exact List.length_take_le _ _
      · exact ih _ c h

/-- The digest tag has exactly `TAG_SIZE` bytes. -/
theorem tagOf_length (key nonce pt : List Nat) : (tagOf key nonce pt).length = TAG_SIZE := by
  simp [tagOf, TAG_SIZE]

/-- The executable AEAD adds exactly `TAG_SIZE` bytes when sealing. -/
theorem idealAEAD_sealLen (key nonce pt : List Nat) :
    (idealAEAD.sealChunk key nonce pt).length = pt.length + TAG_SIZE := by
  show (pt ++ tagOf key nonce pt).length = pt.length + TAG_SIZE
  rw [List.length_append, tagOf_length]

/-- The executable AEAD opens what it seals, under the same key and nonce. -/
theorem idealAEAD_opens (key nonce pt : List Nat) :
    idealAEAD.openChunk key nonce (idealAEAD.sealChunk key nonce pt) = some pt := by
  show (if (pt ++ tagOf key nonce pt).length < TAG_SIZE then none
      else if (pt ++ tagOf key nonce pt).drop ((pt ++ tagOf key nonce pt).length - TAG_SIZE) =
          tagOf key nonce ((pt ++ tagOf key nonce pt).take ((pt ++ tagOf key nonce pt).length - TAG_SIZE))
        then some ((pt ++ tagOf key nonce pt).take ((pt ++ tagOf key nonce pt).length - TAG_SIZE))
        else none) = some pt
  have hlen : (pt ++ tagOf key nonce pt).length = pt.length + TAG_SIZE := by
    rw [List.length_append, tagOf_length]
  have hne : ¬ (pt ++ tagOf key nonce pt).length < TAG_SIZE := by omega
  have hsub : (pt ++ tagOf key nonce pt).length - TAG_SIZE = pt.length := by omega
  rw [if_neg hne, hsub, List.take_left, List.drop_left, if_pos rfl]

/-- Opening the framed output of the seal loop with the same key and matching
counters recovers the concatenated plaintext chunks, for any AEAD that opens
what it seals and adds `TAG_SIZE` bytes of tag. -/
theorem openChunks_sealChunks (A : AEAD) (key : List Nat)
    (hSound : ∀ k n p, A.openChunk k n (A.sealChunk k n p) = some p)
    (hLen : ∀ k n p, (A.sealChunk k n p).length = p.length + TAG_SIZE) :
    ∀ (cs : List (List Nat)) (ctr : Nat), (∀ c ∈ cs, c.length ≤ CHUNK_SIZE) →
      openChunks A key (sealChunks A key ctr cs) ctr = .ok cs.flatten := by
  intro cs
  induction cs with
  | nil =>
    intro ctr _
    exact openChunks_short A key ctr (by simp [sealChunks])
  | cons c cs ih =>
    intro ctr hsz
    have hb := hsz c (List.mem_cons_self c cs)
    rw [show CHUNK_SIZE = 1048576 from rfl] at hb
    have hct : (A.sealChunk key (nonceBytes ctr) c).length < 2 ^ 32 := by
      rw [hLen]
      show c.length + 16 < 2 ^ 32
      omega
    simp only [sealChunks]
    rw [openChunks_record_opens A key ctr _ hct (hSound key (nonceBytes ctr) c)]
    rw [ih (ctr + 1) (fun d hd => hsz d (List.mem_cons_of_mem c hd))]
    rw [List.flatten_cons]

/-- The fresh salt has exactly `SALT_SIZE` bytes. -/
theorem freshSalt_length (rng : Nat → Nat) : (freshSalt rng).length = SALT_SIZE := by
  simp [freshSalt]

/-- The fresh base nonce written by the ChaCha codec has exactly 12 bytes. -/
theorem freshNonce_length (rng : Nat → Nat) : (freshNonce rng).length = 12 := by
  simp [freshNonce]

/-- Round trip at the hard-coded default work factor: decrypting an
encryption that used iteration count 3 recovers the file byte-for-byte, for
every file (empty, single-byte, one-chunk or multi-chunk), every password and
every random stream, and for any AEAD that opens what it seals. -/
theorem decrypt_encrypt_default_iterations (A : AEAD)
    (hSound : ∀ k n p, A.openChunk k n (A.sealChunk k n p) = some p)
    (hLen : ∀ k n p, (A.sealChunk k n p).length = p.length + TAG_SIZE)
    (rng : Nat → Nat) (file : List Nat) (pw : String) :
    decrypt_file A (encrypt_file A rng file pw 3) pw = .ok file := by
  have hshape : encrypt_file A rng file pw 3 =
      VERSION :: Algorithm.to_byte .ChaCha20Poly1305 ::
        (freshSalt rng ++ freshNonce rng ++
          sealChunks A (derive_key pw (freshSalt rng) 3) 0 (chunksOf file)) := by
    simp [encrypt_file, chachaHeader, List.append_assoc]
  rw [hshape, decrypt_file_parse A pw _ (freshSalt_length rng) (freshNonce_length rng)]
  rw [openChunks_sealChunks A _ hSound hLen (chunksOf file) 0
    (chunksLoop_sizes file.length file)]
  rw [chunksOf, chunksLoop_flatten file.length file (Nat.le_refl _)]

/-- The decrypt loop on a framed record stream whose first failing record
sits after `pre` (all of which open) aborts with `AuthenticationFailed`,
whatever records or trailing bytes follow. -/
theorem openChunks_abort_at_first_failure (A : AEAD) (key : List Nat) :
    ∀ (pre : List (List Nat)) (bad : List Nat) (post : List (List Nat))
      (tail : List Nat) (ctr : Nat),
      (∀ c ∈ pre, c.length < 2 ^ 32) → bad.length < 2 ^ 32 →
      OpensAll A key ctr pre →
      A.openChunk key (nonceBytes (ctr + pre.length)) bad = none →
      openChunks A key (frame (pre ++ bad :: post) ++ tail) ctr =
        .err .AuthenticationFailed := by
  intro pre
  induction pre with
  | nil =>
    intro bad post tail ctr _ hbad _ hfail
    have hf : frame ([] ++ bad :: post) ++ tail =
        toBEBytes4 bad.length ++ bad ++ (frame post ++ tail) := by
      simp [frame, List.append_assoc]
    rw [hf]
    exact openChunks_record_fails A key ctr _ hbad hfail
  | cons c pre ih =>
    intro bad post tail ctr hlen hbad hopen hfail
    obtain ⟨⟨pt, hpt⟩, hrest⟩ := hopen
    have hf : frame ((c :: pre) ++ bad :: post) ++ tail =
        toBEBytes4 c.length ++ c ++ (frame (pre ++ bad :: post) ++ tail) := by
      simp [frame, List.append_assoc]
    rw [hf]
    rw [openChunks_record_opens A key ctr _ (hlen c (List.mem_cons_self c pre)) hpt]
    have hfail2 : A.openChunk key (nonceBytes (ctr + 1 + pre.length)) bad = none := by
      have he : ctr + 1 + pre.length = ctr + (c :: pre).length := by
        simp [List.length_cons]; omega
      rw [he]; exact hfail
    rw [ih bad post tail (ctr + 1) (fun d hd => hlen d (List.mem_cons_of_mem c hd))
      hbad hrest hfail2]

/-- C1 (code bug): the round-trip property fails on the code as written.
Decryption derives its key with the hard-coded iteration count 3
("Use default iterations for decryption", `chacha.rs` line 124), so a file
encrypted with the accepted work factor 1 does not decrypt back to itself —
it aborts with `AuthenticationFailed`.  Concrete run of the embedded codec on
the one-byte file `[42]` with password "p" and work factor 1; by
`decrypt_encrypt_default_iterations`, the same pipeline round-trips whenever
the work factor is 3, isolating the hard-coded constant as the failure. -/
theorem roundtrip_fails_at_work_factor_one :
    decrypt_file idealAEAD (encrypt_file idealAEAD zeroRng [42] "p" 1) "p" =
      .err .AuthenticationFailed := by
  decide

/-- C2 (counterexample): encrypting an empty file emits the 46-byte header
and nothing else — zero chunk records, not one record of a 16-byte
ciphertext as the claim states (that would make the output 66 bytes). -/
theorem empty_file_encryption_is_header_only :
    encrypt_file idealAEAD zeroRng [] "p" 3 = chachaHeader zeroRng ∧
      (encrypt_file idealAEAD zeroRng [] "p" 3).length = 46 := by
  decide

/-- C2 (amended): encrypting an empty input produces the container header
followed by zero chunk records — the read loop breaks on `bytes_read == 0`
before sealing anything — and decrypting that container yields an empty
file, for every AEAD, random stream, password and work factor. -/
theorem empty_file_roundtrip :
    ∀ (A : AEAD) (rng : Nat → Nat) (pw : String) (iterations : Nat),
      encrypt_file A rng [] pw iterations = chachaHeader rng ∧
      decrypt_file A (encrypt_file A rng [] pw iterations) pw = .ok [] := by
  intro A rng pw iterations
  have henc : encrypt_file A rng [] pw iterations = chachaHeader rng := by
    simp [encrypt_file, chunksOf, chunksLoop, sealChunks]
  refine ⟨henc, ?_⟩
  rw [henc]
  have hshape : chachaHeader rng = VERSION :: Algorithm.to_byte .ChaCha20Poly1305 ::
      (freshSalt rng ++ freshNonce rng ++ ([] : List Nat)) := by
    simp [chachaHeader]
  rw [hshape, decrypt_file_parse A pw [] (freshSalt_length rng) (freshNonce_length rng)]
  exact openChunks_short A _ 0 (by decide)

/-- C3 (counterexample): the 4-byte length field of the first chunk record of
a concrete encryption (one-byte file, so ciphertext length 17) is stored at
offsets 46..49 as `[0, 0, 0, 17]` — the big-endian encoding, not the
little-endian `[17, 0, 0, 0]` the claim requires. -/
theorem length_field_bytes_not_little_endian :
    ((encrypt_file idealAEAD zeroRng [42] "p" 3).drop 46).take 4 = [0, 0, 0, 17] ∧
      toLEBytes 4 17 = [17, 0, 0, 0] ∧
      ([0, 0, 0, 17] : List Nat) ≠ [17, 0, 0, 0] := by
  decide

/-- C3 (amended): every chunk record's 4-byte length field is big-endian on
both sides: the seal loop writes `toBEBytes4` of the ciphertext length before
each ciphertext (tokio `write_u32`), and the decrypt loop's `read_u32` reads
those four bytes back as the same big-endian value. -/
theorem length_field_big_endian :
    (∀ (A : AEAD) (key : List Nat) (ctr : Nat) (c : List Nat) (cs : List (List Nat)),
      sealChunks A key ctr (c :: cs) =
        toBEBytes4 (A.sealChunk key (nonceBytes ctr) c).length ++
          (A.sealChunk key (nonceBytes ctr) c ++ sealChunks A key (ctr + 1) cs)) ∧
    (∀ (n : Nat) (rest : List Nat),
      read_u32 (toBEBytes4 n ++ rest) = some (n % 2 ^ 32, rest)) := by
  constructor
  · intro A key ctr c cs
    simp [sealChunks, List.append_assoc]
  · exact read_u32_toBEBytes4

/-- C4 (counterexample): the header written by the ChaCha codec is 46 bytes —
version, algorithm, 32-byte salt and a 12-byte base nonce — although the
registry declares `nonce_size` 24 for `ChaCha20Poly1305`: the written
base-nonce width is not the declared one. -/
theorem chacha_base_nonce_not_registry_size :
    (freshNonce zeroRng).length = 12 ∧
      (chachaHeader zeroRng).length = 2 + SALT_SIZE + 12 ∧
      Algorithm.nonce_size .ChaCha20Poly1305 = 24 ∧ (12 : Nat) ≠ 24 := by
  decide

/-- C4 (amended): the base nonce written in the header is always 12 bytes:
for `Aes256Gcm` (codec spec-modelled) this matches the registry's declared
12, while the ChaCha codec ignores the registry's declared 24 and writes 12
(`let mut nonce = [0u8; 12]` in `chacha.rs`). -/
theorem base_nonce_width_as_written :
    ∀ rng : Nat → Nat,
      (freshNonce rng).length = 12 ∧
      chachaHeader rng =
        VERSION :: Algorithm.to_byte .ChaCha20Poly1305 ::
          (freshSalt rng ++ freshNonce rng) ∧
      Algorithm.nonce_size .Aes256Gcm = 12 ∧
      Algorithm.nonce_size .ChaCha20Poly1305 = 24 :=
  fun rng => ⟨freshNonce_length rng, rfl, rfl, rfl⟩

/-- C5: within one encryption session sealing `K` chunks, `K` at most `2^64`
(the counter's width; the spec treats counter overflow as unreachable), the
`K` nonces produced by the counter sequence are pairwise distinct. -/
theorem session_nonces_pairwise_distinct (K i j : Nat) (hK : K ≤ 2 ^ 64)
    (hi : i < K) (hj : j < K) (hij : i ≠ j) :
    sessionNonce i ≠ sessionNonce j := by
  intro h
  rw [sessionNonce_eq (by omega), sessionNonce_eq (by omega)] at h
  exact hij (nonceBytes_injective (by omega) (by omega) h)

/-- C5 witness: the first two nonces of a session differ. -/
theorem session_nonces_pairwise_distinct_witness :
    sessionNonce 0 ≠ sessionNonce 1 :=
  session_nonces_pairwise_distinct 2 0 1 (by norm_num) (by norm_num) (by norm_num)
    (by norm_num)

/-- C6: engine decryption of a container whose version byte is not the
supported version fails with `UnsupportedVersion`, and of one whose algorithm
byte is unknown to the registry fails with `UnsupportedAlgorithm`; both
decisions depend only on the first two bytes — the conclusion holds for every
remaining-file content `tail` and every password, so no chunk data is read
and no key material is derived before the rejection. -/
theorem engine_rejects_bad_header (A : AEAD) (pw : String) (v a : Nat) (tail : List Nat) :
    (v ≠ VERSION →
      engine_decrypt_file A (v :: a :: tail) pw = .err (.UnsupportedVersion v)) ∧
    (v = VERSION → Algorithm.from_byte a = none →
      engine_decrypt_file A (v :: a :: tail) pw = .err (.UnsupportedAlgorithm a)) := by
  constructor
  · intro hv
    simp [engine_decrypt_file, hv]
  · intro hv ha
    subst hv
    simp [engine_decrypt_file, ha, VERSION]

/-- C6 witness: a version-0 container is rejected as `UnsupportedVersion`,
and a version-1 container with unknown algorithm byte 9 as
`UnsupportedAlgorithm`. -/
theorem engine_rejects_bad_header_witness :
    engine_decrypt_file idealAEAD (0 :: 2 :: [7, 7]) "p" = .err (.UnsupportedVersion 0) ∧
    engine_decrypt_file idealAEAD (1 :: 9 :: [7, 7]) "p" = .err (.UnsupportedAlgorithm 9) :=
  ⟨(engine_rejects_bad_header idealAEAD "p" 0 2 [7, 7]).1 (by decide),
   (engine_rejects_bad_header idealAEAD "p" 1 9 [7, 7]).2 (by decide) (by decide)⟩

/-- C7 (counterexample): a container consisting of a valid header plus one
trailing byte — end of stream after one byte of a length field — decrypts
successfully to the empty file instead of failing with `IoError` as the
claim requires. -/
theorem truncated_length_field_not_ioerror :
    decrypt_file idealAEAD (chachaHeader zeroRng ++ [0]) "p" = .ok [] := by
  decide

/-- C7 (amended): in the decrypt chunk loop, end of stream anywhere within
the 4-byte length field (zero to three bytes remaining) is the normal,
successful termination condition — tokio's `read_u32` raises `UnexpectedEof`
in all of those cases and the source matches it into `break` — while a short
read inside a ciphertext body fails the whole decryption with `IoError`. -/
theorem eof_handling_in_chunk_loop (A : AEAD) (key : List Nat) (s : List Nat) (ctr : Nat) :
    (s.length < 4 → openChunks A key s ctr = .ok []) ∧
    (∀ (len : Nat) (rest : List Nat), read_u32 s = some (len, rest) →
      rest.length < len → openChunks A key s ctr = .err .IoError) := by
  exact ⟨fun h => openChunks_short A key ctr h,
    fun len rest h hr => openChunks_body_short A key ctr h hr⟩

/-- C7 witness: one leftover byte terminates normally; a declared 5-byte
body with only one byte left is an I/O error. -/
theorem eof_handling_in_chunk_loop_witness :
    openChunks idealAEAD [] [9] 0 = .ok [] ∧
    openChunks idealAEAD [] [0, 0, 0, 5, 1] 0 = .err .IoError :=
  ⟨(eof_handling_in_chunk_loop idealAEAD [] [9] 0).1 (by decide),
   (eof_handling_in_chunk_loop idealAEAD [] [0, 0, 0, 5, 1] 0).2 5 [1] (by decide)
     (by decide)⟩

/-- C8: if any chunk of a well-framed container fails to open — wrong
password, tampered ciphertext or tag, reordered chunk — while every earlier
chunk opens, the whole decryption aborts with `AuthenticationFailed`: the
result is this single error for all later records `post` and trailing bytes
`tail` (nothing later is processed), and the failing chunk is the first
failing one (nothing is skipped). -/
theorem decrypt_aborts_at_first_failed_chunk (A : AEAD) (pw : String)
    (salt nonce : List Nat) (pre : List (List Nat)) (bad : List Nat)
    (post : List (List Nat)) (tail : List Nat)
    (hs : salt.length = SALT_SIZE) (hn : nonce.length = 12)
    (hpre : ∀ c ∈ pre, c.length < 2 ^ 32) (hbad : bad.length < 2 ^ 32)
    (hopen : OpensAll A (derive_key pw salt 3) 0 pre)
    (hfail : A.openChunk (derive_key pw salt 3) (nonceBytes pre.length) bad = none) :
    decrypt_file A (VERSION :: Algorithm.to_byte .ChaCha20Poly1305 ::
        (salt ++ nonce ++ (frame (pre ++ bad :: post) ++ tail))) pw =
      .err .AuthenticationFailed := by
  rw [decrypt_file_parse A pw _ hs hn]
  exact openChunks_abort_at_first_failure A _ pre bad post tail 0 hpre hbad hopen
    (by rw [Nat.zero_add]; exact hfail)

/-- C8 witness: a container with one tampered chunk (17 bytes that match no
tag) is rejected with `AuthenticationFailed`. -/
theorem decrypt_aborts_at_first_failed_chunk_witness :
    decrypt_file idealAEAD (VERSION :: Algorithm.to_byte .ChaCha20Poly1305 ::
        (List.replicate 32 0 ++ List.replicate 12 0 ++
          (frame ([] ++ List.replicate 17 1 :: []) ++ []))) "p" =
      .err .AuthenticationFailed :=
  decrypt_aborts_at_first_failed_chunk idealAEAD "p" (List.replicate 32 0)
    (List.replicate 12 0) [] (List.replicate 17 1) [] []
    (by decide) (by decide) (by decide) (by decide) trivial (by decide)

/-- C9: the result of ChaCha decryption does not depend on the 12 base-nonce
bytes stored in the header — `decrypt_file` reads and discards them — and
every per-chunk nonce is the four zero bytes followed by the 64-bit
little-endian counter; hence two containers identical except for the
base-nonce field decrypt to the same result. -/
theorem decrypt_independent_of_base_nonce (A : AEAD) (pw : String) (v a : Nat)
    (salt n1 n2 body : List Nat) (hs : salt.length = SALT_SIZE)
    (h1 : n1.length = 12) (h2 : n2.length = 12) :
    decrypt_file A (v :: a :: (salt ++ n1 ++ body)) pw =
      decrypt_file A (v :: a :: (salt ++ n2 ++ body)) pw ∧
    (∀ c, nonceBytes c = List.replicate 4 0 ++ toLEBytes 8 c) := by
  refine ⟨?_, fun c => rfl⟩
  by_cases hv : v = VERSION
  · subst hv
    by_cases ha : a = Algorithm.to_byte .ChaCha20Poly1305
    · subst ha
      rw [decrypt_file_parse A pw body hs h1, decrypt_file_parse A pw body hs h2]
    · simp [decrypt_file, ha]
  · simp [decrypt_file, hv]

/-- C9 witness: two concrete containers differing only in the base-nonce
bytes decrypt identically, and the counter-5 nonce has the stated shape. -/
theorem decrypt_independent_of_base_nonce_witness :
    (decrypt_file idealAEAD
        (1 :: 2 :: (List.replicate 32 0 ++ List.replicate 12 0 ++ [])) "p" =
      decrypt_file idealAEAD
        (1 :: 2 :: (List.replicate 32 0 ++ List.replicate 12 9 ++ [])) "p") ∧
    nonceBytes 5 = List.replicate 4 0 ++ toLEBytes 8 5 := by
  have h := decrypt_independent_of_base_nonce idealAEAD "p" 1 2 (List.replicate 32 0)
    (List.replicate 12 0) (List.replicate 12 9) [] (by decide) (by decide) (by decide)
  exact ⟨h.1, h.2 5⟩

/-- C10: the decrypt loop places no upper bound on a declared chunk length:
for any length-field value — in particular any `len` exceeding
`CHUNK_SIZE + TAG_SIZE` — it attempts to read exactly `len` bytes and open
them; a stream shorter than `len` is an `IoError`, a failed open an
`AuthenticationFailed`, and no outcome is ever `InvalidFormat`. -/
theorem oversized_length_never_invalid_format (A : AEAD) (key : List Nat)
    (s : List Nat) (ctr len : Nat) (rest : List Nat)
    (h : read_u32 s = some (len, rest)) (hbig : CHUNK_SIZE + TAG_SIZE < len) :
    (rest.length < len → openChunks A key s ctr = .err .IoError) ∧
    (¬ rest.length < len → A.openChunk key (nonceBytes ctr) (rest.take len) = none →
      openChunks A key s ctr = .err .AuthenticationFailed) ∧
    (∀ msg, openChunks A key s ctr ≠ .err (.InvalidFormat msg)) :=
  ⟨fun hr => openChunks_body_short A key ctr h hr,
   fun hr ho => openChunks_open_fails A key ctr h hr ho,
   fun msg => openChunks_never_invalid A key s ctr msg⟩

/-- C10 witness: a record declaring 1048593 bytes (one more than
`CHUNK_SIZE + TAG_SIZE`) over an empty remainder fails as an I/O error, not
as `InvalidFormat`. -/
theorem oversized_length_never_invalid_format_witness :
    openChunks idealAEAD [] [0, 16, 0, 17] 0 = .err .IoError :=
  (oversized_length_never_invalid_format idealAEAD [] [0, 16, 0, 17] 0 1048593 []
    (by decide) (by decide)).1 (by decide)

end SecureVault
